import Mathlib

/-!
# psscanner: a shallow embedding of `internal/psscanner/psscanner.go`

The scanner reads per-process pseudo-files under `/proc`, applies three
exclusion filters and sends one `PSEvent` per surviving new pid.

Modelling conventions.

* A Go `string` or `[]byte` is a list of bytes (`GoString`).  String literals of
  the source are written `gs "..."`, their UTF-8 bytes.
* Go `int` is `Int`; the only place where the 64-bit width matters is
  `strconv.Atoi`, which is modelled with its range check.
* The operating system is an explicit record `OS` holding the three hooks the
  source calls: `open`, `lstat` and `user.LookupId`.  One call of
  `processNewPid` opens each path at most once, so a hook is a function of its
  arguments.
* `p.eventCh <- evt` is modelled by returning the event: `processNewPid`
  yields `some evt` when it sends, `none` when it returns early.
-/

namespace psscanner

/-! ## Strings and the Go library functions used by the source -/

/-- Go strings and byte slices: finite sequences of bytes. -/
abbrev GoString := List UInt8

/-- The UTF-8 bytes of a string literal of the source. -/
def gs (s : String) : GoString := s.toList.flatMap String.utf8EncodeChar

/-- The Go `error` values that occur: `io.EOF`, an OS error number, the
`errors.New` value of `getPpid`, and the two `strconv.NumError` kinds. -/
inductive GoError where
  | EOF
  | errno (code : Nat)
  | New (msg : GoString)
  | numInvalid
  | numRange
  deriving DecidableEq, Repr

/-- Decimal digits of a natural number, most significant first. -/
def natDigits (n : Nat) : GoString := (Nat.toDigits 10 n).map (fun c => c.toNat.toUInt8)

/-- The Go function `strconv.Itoa`, also the rendering of the `%d` verb. -/
def Itoa (i : Int) : GoString :=
  if i < 0 then 45 :: natDigits i.natAbs else natDigits i.natAbs

/-- The Go function `strconv.FormatUint(n, 10)`. -/
def FormatUint (n : Nat) : GoString := natDigits n

/-- The Go function `strings.Contains(s, substr)`: `substr` occurs in `s` as a
contiguous run of bytes (the empty string occurs everywhere). -/
def Contains : GoString → GoString → Bool
  | [], substr => substr.isEmpty
  | c :: s, substr => substr.isPrefixOf (c :: s) || Contains s substr

/-- Width in bytes of a white-space rune (`unicode.IsSpace`) encoded at the head
of `s`, or `0` when `s` does not start with one.  The white-space runes are
U+0009..U+000D, U+0020, U+0085, U+00A0, U+1680, U+2000..U+200A, U+2028, U+2029,
U+202F, U+205F and U+3000; each has exactly one valid UTF-8 encoding. -/
def leadingSpaceWidth : GoString → Nat
  | 0xC2 :: 0x85 :: _ => 2
  | 0xC2 :: 0xA0 :: _ => 2
  | 0xE1 :: 0x9A :: 0x80 :: _ => 3
  | 0xE2 :: 0x80 :: c :: _ =>
    if (0x80 ≤ c ∧ c ≤ 0x8A) ∨ c = 0xA8 ∨ c = 0xA9 ∨ c = 0xAF then 3 else 0
  | 0xE2 :: 0x81 :: 0x9F :: _ => 3
  | 0xE3 :: 0x80 :: 0x80 :: _ => 3
  | c :: _ => if (0x09 ≤ c ∧ c ≤ 0x0D) ∨ c = 0x20 then 1 else 0
  | [] => 0

/-- Width in bytes of a white-space rune encoded at the end of the string whose
reversal is `r`, or `0` (the outcome of `utf8.DecodeLastRuneInString`
followed by `unicode.IsSpace`). -/
def trailingSpaceWidth : GoString → Nat
  | 0x85 :: 0xC2 :: _ => 2
  | 0xA0 :: 0xC2 :: _ => 2
  | 0x9F :: 0x81 :: 0xE2 :: _ => 3
  | 0x80 :: 0x9A :: 0xE1 :: _ => 3
  | 0x80 :: 0x80 :: 0xE3 :: _ => 3
  | c :: 0x80 :: 0xE2 :: _ =>
    if (0x80 ≤ c ∧ c ≤ 0x8A) ∨ c = 0xA8 ∨ c = 0xA9 ∨ c = 0xAF then 3
    else if (0x09 ≤ c ∧ c ≤ 0x0D) ∨ c = 0x20 then 1 else 0
  | c :: _ => if (0x09 ≤ c ∧ c ≤ 0x0D) ∨ c = 0x20 then 1 else 0
  | [] => 0

/-- Drop white-space runes from the head of `s`, as long as `width` finds one
(`fuel` bounds the number of runes, the length of `s` is enough). -/
def trimWhile (width : GoString → Nat) : Nat → GoString → GoString
  | 0, s => s
  | fuel + 1, s =>
    match width s with
    | 0 => s
    | w + 1 => trimWhile width fuel (s.drop (w + 1))

/-- The Go function `strings.TrimSpace`: all leading and trailing white space
removed, white space as defined by Unicode. -/
def TrimSpace (s : GoString) : GoString :=
  let left := trimWhile leadingSpaceWidth s.length s
  (trimWhile trailingSpaceWidth left.length left.reverse).reverse

/-- The `%-Ns` and `%-Nd` verbs of `fmt.Sprintf`: the text, then spaces up to
the width `N`; a text longer than `N` is not cut.  (Go counts runes; every text
padded by the source is ASCII, where runes are bytes.) -/
def padRight (width : Nat) (s : GoString) : GoString :=
  s ++ List.replicate (width - s.length) 32

/-! ## The operating system as seen through the hooks of the source -/

/-- The field of `syscall.Stat_t` the source reads. -/
structure Stat_t where
  Uid : UInt32
  deriving DecidableEq, Repr

/-- An `io.ReadCloser`: `Read n` is the outcome of the first `Read` into a
buffer of length `n`, the bytes stored in `buffer[:count]` and the error.  The
`io.Reader` contract bounds the count by the buffer length. -/
structure ReadCloser where
  Read : Nat → GoString × Option GoError
  Read_le : ∀ n, (Read n).1.length ≤ n

/-- The field of `user.User` the source reads. -/
structure User where
  Username : GoString
  deriving DecidableEq, Repr

/-- The hooks `open` and `lstat` of the source and the library call
`user.LookupId`.  `lstat` receives the record the caller passes by pointer and
returns it as the call leaves it. -/
structure OS where
  openFile : GoString → Except GoError ReadCloser
  lstat : GoString → Stat_t → Stat_t × Option GoError
  LookupId : GoString → Except GoError User

/-- A regular file with the given content, freshly opened: one `Read` returns
the first bytes of the content, as many as the buffer holds, and `io.EOF`
when there is nothing to return to a non-empty buffer. -/
def fileReader (content : GoString) : ReadCloser where
  Read := fun n =>
    (content.take n, if content.isEmpty && decide (0 < n) then some GoError.EOF else none)
  Read_le := fun n => by simp [List.length_take]

/-! ## The source -/

/-- Source lines 16-23, `type PSScanner struct`, without the channel `eventCh`
(the events sent are results here).  `maxCmdLength` is the length of the buffer
`make([]byte, maxlen)` allocates, a natural number. -/
structure PSScanner where
  enablePpid : Bool
  maxCmdLength : Nat
  cgroupFilter : GoString
  userFilter : List GoString
  cmdFilter : List GoString
  deriving DecidableEq, Repr

/-- Source lines 25-30, `type PSEvent struct`. -/
structure PSEvent where
  UID : Int
  PID : Int
  PPID : Int
  CMD : GoString
  deriving DecidableEq, Repr

/-- Source lines 32-46, `func (evt PSEvent) String() string`. -/
def PSEvent.String (evt : PSEvent) : GoString :=
  let uid := if evt.UID = -1 then gs "???" else Itoa evt.UID
  let cmd := TrimSpace evt.CMD
  if evt.PPID = -1 then
    gs "UID=" ++ padRight 5 uid ++ gs " PID=" ++ padRight 6 (Itoa evt.PID) ++ gs " CMD=" ++ cmd
  else
    gs "UID=" ++ padRight 5 uid ++ gs " PID=" ++ padRight 6 (Itoa evt.PID)
      ++ gs " PPID=" ++ padRight 6 (Itoa evt.PPID) ++ gs " CMD=" ++ cmd

/-- Source lines 160-173, `readFile`: open, one `Read` into a buffer of
`maxlen` bytes, `io.EOF` counted as success. -/
def readFile (os : OS) (filename : GoString) (maxlen : Nat) : GoString × Option GoError :=
  match os.openFile filename with
  | .error err => ([], some err)
  | .ok file =>
    match file.Read maxlen with
    | (buffer, some err) => if err ≠ GoError.EOF then ([], some err) else (buffer, none)
    | (buffer, none) => (buffer, none)

/-! ### The pattern of `ppidRegex`

`regexp.Compile("\\d+ \\(.*\\) [[:alpha:]] (\\d+)")`: a sequence of one-byte
atoms, some under a greedy `*` or `+`, with one capture group.  Go matches
leftmost-first: the match starts at the leftmost possible offset and, there,
is the one a backtracking search finds first, a greedy operator trying its
longest repetition first.  The atoms are `\d` and `[[:alpha:]]` (ASCII only in
Go), the literal bytes, and `.`, any rune except line feed; as the atom that
follows `.*` is an ASCII byte, which never lies inside the encoding of another
rune, `.` is taken bytewise: any byte except line feed. -/

/-- One element of the pattern. -/
inductive Node where
  | one (cls : UInt8 → Bool)
  | star (cls : UInt8 → Bool)
  | plus (cls : UInt8 → Bool)
  | groupOpen
  | groupClose

/-- The class `\d`. -/
def isDigit (c : UInt8) : Bool := decide (48 ≤ c.toNat) && decide (c.toNat ≤ 57)

/-- The class `[[:alpha:]]`. -/
def isAlpha (c : UInt8) : Bool :=
  (decide (65 ≤ c.toNat) && decide (c.toNat ≤ 90)) || (decide (97 ≤ c.toNat) && decide (c.toNat ≤ 122))

/-- The class `.`. -/
def isDot (c : UInt8) : Bool := decide (c ≠ 10)

/-- A literal byte. -/
def isByte (b : UInt8) (c : UInt8) : Bool := decide (c = b)

/-- The compiled pattern (source line 50). -/
def ppidRegex : List Node :=
  [Node.plus isDigit, Node.one (isByte 32), Node.one (isByte 40), Node.star isDot,
   Node.one (isByte 41), Node.one (isByte 32), Node.one isAlpha, Node.one (isByte 32),
   Node.groupOpen, Node.plus isDigit, Node.groupClose]

/-- Greedy repetition: consume bytes of the class as far as possible, then run
the continuation `k` on what is left, giving bytes back one at a time while `k`
fails. -/
def greedyStar {α : Type} (cls : UInt8 → Bool) (k : GoString → Option α) : GoString → Option α
  | [] => k []
  | c :: s =>
    if cls c then
      match greedyStar cls k s with
      | some r => some r
      | none => k (c :: s)
    else k (c :: s)

/-- Backtracking match of the nodes at the head of the input.  `grp` is the
input as it stood when the group opened and the text the group has captured
once it closed; the result is the captured text and the input left over. -/
def matchHere : List Node → GoString → GoString → Option (GoString × GoString)
  | [], grp, s => some (grp, s)
  | Node.one cls :: rest, grp, s =>
    match s with
    | [] => none
    | c :: s => if cls c then matchHere rest grp s else none
  | Node.star cls :: rest, grp, s => greedyStar cls (matchHere rest grp) s
  | Node.plus cls :: rest, grp, s =>
    match s with
    | [] => none
    | c :: s => if cls c then greedyStar cls (matchHere rest grp) s else none
  | Node.groupOpen :: rest, _, s => matchHere rest s s
  | Node.groupClose :: rest, grp, s => matchHere rest (grp.take (grp.length - s.length)) s

/-- The method `FindStringSubmatch`: the leftmost match, as the list of the
whole match and the text of group 1; `none` for Go's `nil`. -/
def FindStringSubmatch (re : List Node) : GoString → Option (List GoString)
  | [] =>
    match matchHere re [] [] with
    | some (grp, _) => some [[], grp]
    | none => none
  | c :: s =>
    match matchHere re [] (c :: s) with
    | some (grp, left) => some [(c :: s).take ((c :: s).length - left.length), grp]
    | none => FindStringSubmatch re s

/-- The loop of `strconv.ParseUint(s, 10, 64)`: a byte that is no digit is a
syntax error, a value that leaves 64 bits a range error. -/
def parseUintLoop : GoString → Nat → Nat × Option GoError
  | [], n => (n, none)
  | c :: s, n =>
    if !isDigit c then (0, some GoError.numInvalid)
    else if n ≥ (2 ^ 64 - 1) / 10 + 1 then (2 ^ 64 - 1, some GoError.numRange)
    else if n * 10 + (c.toNat - 48) ≥ 2 ^ 64 then (2 ^ 64 - 1, some GoError.numRange)
    else parseUintLoop s (n * 10 + (c.toNat - 48))

/-- The Go function `strconv.Atoi` where `int` has 64 bits: an optional sign,
then decimal digits; out of range gives the nearest bound and a range error. -/
def Atoi (s : GoString) : Int × Option GoError :=
  let neg := s.head? = some 45
  let digits := if s.head? = some 45 ∨ s.head? = some 43 then s.tail else s
  if digits = [] then (0, some GoError.numInvalid)
  else
    match parseUintLoop digits 0 with
    | (_, some err) =>
      if err ≠ GoError.numRange then (0, some err)
      else if neg then (-(2 ^ 63 : Int), some err) else ((2 ^ 63 - 1 : Int), some err)
    | (un, none) =>
      if !neg ∧ un ≥ 2 ^ 63 then ((2 ^ 63 - 1 : Int), some GoError.numRange)
      else if neg ∧ un > 2 ^ 63 then (-(2 ^ 63 : Int), some GoError.numRange)
      else if neg then (-(un : Int), none) else ((un : Int), none)

/-- The paths the source builds: `fmt.Sprintf("/proc/%d" + suffix, pid)` for the
suffixes `""`, `"/cgroup"`, `"/cmdline"` and `"/stat"`. -/
def procPath (pid : Int) (suffix : String) : GoString :=
  gs "/proc/" ++ Itoa pid ++ gs suffix

/-- Source lines 143-157, `func (p *PSScanner) getPpid(pid int) (int, error)`. -/
def getPpid (os : OS) (p : PSScanner) (pid : Int) : Int × Option GoError :=
  if !p.enablePpid then (-1, none)
  else
    match readFile os (procPath pid "/stat") 512 with
    | (_, some err) => (-1, some err)
    | (stat, none) =>
      match FindStringSubmatch ppidRegex stat with
      | some m => Atoi (m.getD 1 [])
      | none => (-1, some (GoError.New (gs "corrupt stat file")))

/-- Source lines 110-114: the loop that overwrites every zero byte of the
buffer with a space, index by index. -/
def nulToSpace (cmdLine : GoString) : GoString :=
  (List.range cmdLine.length).foldl
    (fun buf i => if buf.getD i 0 = 0 then buf.set i 32 else buf) cmdLine

/-- Source lines 125-137: the loop over the command filter; `true` when one of
its `return` statements is reached. -/
def cmdFilterLoop (cmd : GoString) : List GoString → Bool
  | [] => false
  | v :: rest =>
    if Contains cmd v then true
    else if cmd = gs "???" then true
    else if cmd = [] then true
    else cmdFilterLoop cmd rest

/-- Source lines 85-141, `func (p *PSScanner) processNewPid(pid int)`: the event
sent on `p.eventCh`, or `none` when the function returns without sending. -/
def processNewPid (os : OS) (p : PSScanner) (pid : Int) : Option PSEvent :=
  if p.cgroupFilter ≠ [] ∧
      Contains (readFile os (procPath pid "/cgroup") 512).1 p.cgroupFilter then
    none
  else
    match os.lstat (procPath pid "") { Uid := 0 } with
    | (statInfo, errStat) =>
      if p.userFilter.length > 0 &&
          (match os.LookupId (FormatUint statInfo.Uid.toNat) with
           | .ok userLookup => p.userFilter.contains userLookup.Username
           | .error _ => false) then
        none
      else
        match readFile os (procPath pid "/cmdline") p.maxCmdLength with
        | (cmdLine, errCmdLine) =>
          let ppid := (getPpid os p pid).1
          let cmd := if errCmdLine = none then nulToSpace cmdLine else gs "???"
          let uid : Int := if errStat = none then (statInfo.Uid.toNat : Int) else -1
          if p.cmdFilter.length > 0 ∧ cmdFilterLoop cmd p.cmdFilter then none
          else some { UID := uid, PID := pid, PPID := ppid, CMD := cmd }

/-! ## The process index and the scan loop -/

/-- The type `procList` of the source (line 74, `make(procList)`): the pids of
the previous snapshot. -/
abbrev procList := List Int

/-- Modelled from the spec: `procList.refresh` and the listing of `/proc` it
obtains are not among the source files.  Section 4.4: with `current` the pids
listed now, the new pids are those of `current` absent from the previous
snapshot (`new = current − previous`), each is handed to `processNewPid`, and
the index is replaced by `current`.  The result is the index after the scan,
the pids handed over and the events sent. -/
def procList.refresh (pl : procList) (p : PSScanner) (os : OS) (current : List Int) :
    procList × List Int × List PSEvent :=
  let newPids := current.filter (fun pid => !pl.contains pid)
  (current, newPids, newPids.filterMap (processNewPid os p))

/-- What one trigger meets: the operating system as it answers during that
scan and the pids its process table lists. -/
structure Cycle where
  os : OS
  snapshot : List Int

/-- The loop of `Run` from a given index: one `refresh` per trigger, in order;
per cycle, the pids handed to `processNewPid` and the events sent. -/
def runFrom (p : PSScanner) : procList → List Cycle → List (List Int × List PSEvent)
  | _, [] => []
  | pl, c :: rest =>
    match procList.refresh pl p c.os c.snapshot with
    | (pl1, newPids, events) => (newPids, events) :: runFrom p pl1 rest

/-- Source lines 70-83, `func (p *PSScanner) Run`: the index starts empty
(`make(procList)`) and every trigger runs one `refresh`. -/
def PSScanner.Run (p : PSScanner) (triggers : List Cycle) : List (List Int × List PSEvent) :=
  runFrom p [] triggers

/-! ## Notions used to state the properties -/

/-- The bytes `processNewPid` obtains for the cgroup file of `pid`. -/
def cgroupContent (os : OS) (pid : Int) : GoString :=
  (readFile os (procPath pid "/cgroup") 512).1

/-- The record left by the owner query of `processNewPid` and its error. -/
def ownerStat (os : OS) (pid : Int) : Stat_t × Option GoError :=
  os.lstat (procPath pid "") { Uid := 0 }

/-- The outcome of resolving the uid the user filter looks up. -/
def ownerLookup (os : OS) (pid : Int) : Except GoError User :=
  os.LookupId (FormatUint (ownerStat os pid).1.Uid.toNat)

/-- The command string `processNewPid` resolves (source lines 105-116): the
bytes read with zero bytes turned into spaces, or `"???"` when the read fails. -/
def resolvedCmd (os : OS) (p : PSScanner) (pid : Int) : GoString :=
  if (readFile os (procPath pid "/cmdline") p.maxCmdLength).2 = none then
    nulToSpace (readFile os (procPath pid "/cmdline") p.maxCmdLength).1
  else gs "???"

/-- The value of a decimal numeral. -/
def decimalValue (digits : GoString) : Nat :=
  digits.foldl (fun acc c => acc * 10 + (c.toNat - 48)) 0

/-- A status record of the form `<pid> (<name>) <state> <ppid> <fields>`. -/
def statRecord (pidTxt name : GoString) (state : UInt8) (ppidTxt fields : GoString) : GoString :=
  pidTxt ++ gs " (" ++ name ++ gs ") " ++ [state] ++ gs " " ++ ppidTxt ++ gs " " ++ fields

/-- The white-space code points: those with the Unicode property White_Space. -/
def whiteSpaceRunes : List Nat :=
  [0x09, 0x0A, 0x0B, 0x0C, 0x0D, 0x20, 0x85, 0xA0, 0x1680,
   0x2000, 0x2001, 0x2002, 0x2003, 0x2004, 0x2005, 0x2006, 0x2007, 0x2008, 0x2009, 0x200A,
   0x2028, 0x2029, 0x202F, 0x205F, 0x3000]

/-- The white-space characters as they stand in a string: the UTF-8 encoding of
each white-space code point. -/
def whiteSpace : List GoString :=
  whiteSpaceRunes.map (fun c => String.utf8EncodeChar (Char.ofNat c))

/-- The encodings of `whiteSpace`, written out byte by byte. -/
def whiteSpaceBytes : List GoString :=
  [[0x09], [0x0A], [0x0B], [0x0C], [0x0D], [0x20], [0xC2, 0x85], [0xC2, 0xA0],
   [0xE1, 0x9A, 0x80],
   [0xE2, 0x80, 0x80], [0xE2, 0x80, 0x81], [0xE2, 0x80, 0x82], [0xE2, 0x80, 0x83],
   [0xE2, 0x80, 0x84], [0xE2, 0x80, 0x85], [0xE2, 0x80, 0x86], [0xE2, 0x80, 0x87],
   [0xE2, 0x80, 0x88], [0xE2, 0x80, 0x89], [0xE2, 0x80, 0x8A],
   [0xE2, 0x80, 0xA8], [0xE2, 0x80, 0xA9], [0xE2, 0x80, 0xAF], [0xE2, 0x81, 0x9F],
   [0xE3, 0x80, 0x80]]

/-- A run of white space: white-space characters one after the other, possibly
none. -/
def IsSpaceRun (l : GoString) : Prop :=
  ∃ runes : List GoString, (∀ r ∈ runes, r ∈ whiteSpace) ∧ l = runes.flatten

/-- Specification wording, `t` is `s` with its leading and trailing white space
removed: `s` is a run of white space, then `t`, then a run of white space, and
`t` neither starts nor ends with a white-space character. -/
def IsTrimmed (s t : GoString) : Prop :=
  ∃ l r, s = l ++ t ++ r ∧ IsSpaceRun l ∧ IsSpaceRun r ∧
    (∀ w ∈ whiteSpace, ¬ w <+: t) ∧ (∀ w ∈ whiteSpace, ¬ w <:+ t)

/-- Specification wording, `text` is the decimal numeral of `n`: a minus sign
when `n` is negative, then decimal digits whose value is the magnitude of `n`,
with no leading zero except for the numeral `0`. -/
def IsDecimal (n : Int) (text : GoString) : Prop :=
  ∃ digits : GoString, text = (if n < 0 then [45] else []) ++ digits ∧ digits ≠ [] ∧
    (∀ c ∈ digits, isDigit c = true) ∧ decimalValue digits = n.natAbs ∧
    (digits.head? = some 48 → digits = [48])

/-- The wording of claim C7 taken literally, `field` is `text` in a field of
`width` characters: the text, then spaces, `width` characters in all. -/
def IsExactField (width : Nat) (text field : GoString) : Prop :=
  ∃ k, field = text ++ List.replicate k 32 ∧ field.length = width

/-- The amended wording, `field` is `text` in a field of at least `width`
characters: the text, then spaces up to `width` characters, no space and no cut
when the text is longer. -/
def IsField (width : Nat) (text field : GoString) : Prop :=
  ∃ k, field = text ++ List.replicate k 32 ∧ field.length = max width text.length

/-- Specification wording of the rendered line (claim C7), for a given notion
of field: `UID=` and the uid field (`???` for the uid -1, else its decimal
numeral), ` PID=` and the pid field, the segment ` PPID=` with the ppid field
exactly when `withPpid` holds, then ` CMD=` and the trimmed command. -/
def IsLine (Field : Nat → GoString → GoString → Prop) (e : PSEvent) (withPpid : Prop)
    (line : GoString) : Prop :=
  ∃ uid pid fu fp segment cmd : GoString,
    (e.UID = -1 → uid = gs "???") ∧ (e.UID ≠ -1 → IsDecimal e.UID uid) ∧
    IsDecimal e.PID pid ∧ Field 5 uid fu ∧ Field 6 pid fp ∧
    (withPpid → ∃ ppid fpp, IsDecimal e.PPID ppid ∧ Field 6 ppid fpp ∧
      segment = gs " PPID=" ++ fpp) ∧
    (¬ withPpid → segment = []) ∧
    IsTrimmed e.CMD cmd ∧
    line = gs "UID=" ++ fu ++ gs " PID=" ++ fp ++ segment ++ gs " CMD=" ++ cmd

/-! ## Concrete systems for the examples -/

/-- An operating system given by tables: the files that can be opened with
their contents (any other path fails with ENOENT), the owner every `lstat`
reports (or `none`: the query fails and leaves the record as passed), and the
user names of the known uids. -/
def tableOS (files : List (GoString × GoString)) (owner : Option UInt32)
    (users : List (GoString × GoString)) : OS where
  openFile := fun path =>
    match files.lookup path with
    | some content => .ok (fileReader content)
    | none => .error (GoError.errno 2)
  lstat := fun _ st =>
    match owner with
    | some uid => ({ Uid := uid }, none)
    | none => (st, some (GoError.errno 2))
  LookupId := fun uid =>
    match users.lookup uid with
    | some name => .ok { Username := name }
    | none => .error (GoError.New (gs "user: unknown userid"))

/-- The three pseudo-files of a live process `sleep 10` with parent 1. -/
def sleepFiles (pid : Int) (cgroup : GoString) : List (GoString × GoString) :=
  [(procPath pid "/cgroup", cgroup),
   (procPath pid "/cmdline", gs "/bin/sleep" ++ [0] ++ gs "10"),
   (procPath pid "/stat", Itoa pid ++ gs " (sleep) S 1 " ++ Itoa pid ++ gs " 0 -1 4194304\n")]

/-- A cgroup file of 546 bytes, one line `0::<path>` for a process 24 slices
deep; its only mention of `docker` starts at byte 532. -/
def longCgroup : GoString :=
  gs "0::" ++ (List.replicate 24 (gs "/system-workload.slice")).flatMap id
    ++ gs "/docker/abc123\n"

/-- The users `root` (uid 0) and `alice` (uid 1000). -/
def passwd : List (GoString × GoString) :=
  [(gs "0", gs "root"), (gs "1000", gs "alice")]

/-! ## Auxiliary facts -/

theorem Contains_iff (s substr : GoString) : Contains s substr = true ↔ substr <:+: s := by
  induction s with
  | nil => simp [Contains, List.isEmpty_iff]
  | cons c s ih =>
    simp only [Contains, Bool.or_eq_true, ih, List.infix_cons_iff, List.isPrefixOf_iff_prefix]

theorem readFile_fileReader (os : OS) (filename content : GoString) (maxlen : Nat)
    (h : os.openFile filename = .ok (fileReader content)) :
    readFile os filename maxlen = (content.take maxlen, none) := by
  unfold readFile
  rw [h]
  simp only [fileReader]
  by_cases hc : (content.isEmpty && decide (0 < maxlen)) = true
  · simp only [hc, if_true]
    simp
  · simp only [hc]
    simp

theorem cmdFilterLoop_iff (cmd : GoString) (filter : List GoString) :
    cmdFilterLoop cmd filter = true ↔
      filter ≠ [] ∧ (cmd = gs "???" ∨ cmd = [] ∨ ∃ v ∈ filter, v <:+: cmd) := by
  induction filter with
  | nil => simp [cmdFilterLoop]
  | cons v rest ih =>
    unfold cmdFilterLoop
    by_cases h1 : Contains cmd v = true
    · have := (Contains_iff cmd v).1 h1
      simp only [h1, if_true, true_iff]
      exact ⟨by simp, Or.inr (Or.inr ⟨v, by simp, this⟩)⟩
    · have hv : ¬ v <:+: cmd := fun h => h1 ((Contains_iff cmd v).2 h)
      by_cases h2 : cmd = gs "???"
      · simp [h1, h2]
      · by_cases h3 : cmd = []
        · simp [h1, h2, h3]
        · simp only [h1, h2, h3, if_false, ih, Bool.false_eq_true]
          constructor
          · rintro ⟨_, h | h | ⟨w, hw, hwc⟩⟩
            · exact h.elim
            · exact h.elim
            · exact ⟨by simp, Or.inr (Or.inr ⟨w, by simp [hw], hwc⟩)⟩
          · rintro ⟨_, h | h | ⟨w, hw, hwc⟩⟩
            · exact h.elim
            · exact h.elim
            · rcases List.mem_cons.1 hw with rfl | hw
              · exact absurd hwc hv
              · exact ⟨List.ne_nil_of_mem hw, Or.inr (Or.inr ⟨w, hw, hwc⟩)⟩

/-- The body of `processNewPid` as a chain of its three filters. -/
theorem processNewPid_eq (os : OS) (p : PSScanner) (pid : Int) :
    processNewPid os p pid =
      if p.cgroupFilter ≠ [] ∧ Contains (cgroupContent os pid) p.cgroupFilter then none
      else if p.userFilter.length > 0 &&
          (match ownerLookup os pid with
           | .ok userLookup => p.userFilter.contains userLookup.Username
           | .error _ => false) then none
      else if p.cmdFilter.length > 0 ∧ cmdFilterLoop (resolvedCmd os p pid) p.cmdFilter then none
      else some { UID := if (ownerStat os pid).2 = none then ((ownerStat os pid).1.Uid.toNat : Int) else -1,
                  PID := pid, PPID := (getPpid os p pid).1, CMD := resolvedCmd os p pid } := by
  rfl

theorem nulToSpace_getElem? (b : GoString) (k : Nat) (hk : k ≤ b.length) (j : Nat) :
    ((List.range k).foldl (fun buf i => if buf.getD i 0 = 0 then buf.set i 32 else buf) b)[j]? =
      if j < k then b[j]?.map (fun c => if c = 0 then 32 else c) else b[j]? := by
  induction k generalizing j with
  | zero => simp
  | succ k ih =>
    have hlt : k < b.length := hk
    rw [List.range_succ, List.foldl_append]
    simp only [List.foldl_cons, List.foldl_nil]
    generalize hbuf : (List.range k).foldl
      (fun buf i => if buf.getD i 0 = 0 then buf.set i 32 else buf) b = buf at ih ⊢
    have ihk := ih (Nat.le_of_lt hlt)
    have hkk : buf[k]? = some b[k] := by
      rw [ihk k]; simp [List.getElem?_eq_getElem hlt]
    have hlen : k < buf.length := (List.getElem?_eq_some.1 hkk).1
    have hget : buf.getD k 0 = b[k] := by
      rw [List.getD_eq_getElem?_getD, hkk]; rfl
    rw [hget]
    by_cases hz : b[k] = 0
    · simp only [hz, if_true, List.getElem?_set]
      by_cases hj : k = j
      · subst hj
        simp [hlen, List.getElem?_eq_getElem hlt, hz]
      · rw [if_neg hj, ihk j]
        by_cases hjk : j < k
        · simp [hjk, Nat.lt_succ_of_lt hjk]
        · have : ¬ j < k + 1 := by omega
          simp [hjk, this]
    · simp only [hz, if_false]
      rw [ihk j]
      by_cases hj : k = j
      · subst hj
        simp [List.getElem?_eq_getElem hlt, hz]
      · by_cases hjk : j < k
        · simp [hjk, Nat.lt_succ_of_lt hjk]
        · have : ¬ j < k + 1 := by omega
          simp [hjk, this]

theorem nulToSpace_eq_map (b : GoString) :
    nulToSpace b = b.map (fun c => if c = 0 then 32 else c) := by
  apply List.ext_getElem?
  intro j
  unfold nulToSpace
  rw [nulToSpace_getElem? b b.length (Nat.le_refl _) j, List.getElem?_map]
  by_cases hj : j < b.length
  · simp [hj]
  · simp [hj, List.getElem?_eq_none (Nat.le_of_not_lt hj)]

theorem processNewPid_PID (os : OS) (p : PSScanner) (pid : Int) (e : PSEvent)
    (h : processNewPid os p pid = some e) : e.PID = pid := by
  rw [processNewPid_eq] at h
  split_ifs at h <;> (simp only [Option.some.injEq] at h; rw [← h])

theorem processNewPid_CMD (os : OS) (p : PSScanner) (pid : Int) (e : PSEvent)
    (h : processNewPid os p pid = some e) : e.CMD = resolvedCmd os p pid := by
  rw [processNewPid_eq] at h
  split_ifs at h <;> (simp only [Option.some.injEq] at h; rw [← h])

theorem processNewPid_PPID (os : OS) (p : PSScanner) (pid : Int) (e : PSEvent)
    (h : processNewPid os p pid = some e) : e.PPID = (getPpid os p pid).1 := by
  rw [processNewPid_eq] at h
  split_ifs at h <;> (simp only [Option.some.injEq] at h; rw [← h])

set_option maxRecDepth 100000 in
theorem whiteSpace_eq : whiteSpace = whiteSpaceBytes := by
  decide

set_option maxRecDepth 100000 in
theorem asciiSpace_mem (c : UInt8) (h : (0x09 ≤ c ∧ c ≤ 0x0D) ∨ c = 0x20) : [c] ∈ whiteSpace := by
  rw [whiteSpace_eq]
  obtain ⟨⟨n⟩⟩ := c
  revert n
  decide

set_option maxRecDepth 100000 in
theorem wideSpace_mem (c : UInt8) (h : (0x80 ≤ c ∧ c ≤ 0x8A) ∨ c = 0xA8 ∨ c = 0xA9 ∨ c = 0xAF) :
    [0xE2, 0x80, c] ∈ whiteSpace := by
  rw [whiteSpace_eq]
  obtain ⟨⟨n⟩⟩ := c
  revert n
  decide

theorem leadingSpaceWidth_take (s : GoString) (w : Nat) (h : leadingSpaceWidth s = w + 1) :
    s.take (w + 1) ∈ whiteSpace := by
  unfold leadingSpaceWidth at h
  split at h
  · obtain rfl : w = 1 := by omega
    rw [whiteSpace_eq]; simp [whiteSpaceBytes]
  · obtain rfl : w = 1 := by omega
    rw [whiteSpace_eq]; simp [whiteSpaceBytes]
  · obtain rfl : w = 2 := by omega
    rw [whiteSpace_eq]; simp [whiteSpaceBytes]
  · split_ifs at h with hc
    obtain rfl : w = 2 := by omega
    exact wideSpace_mem _ hc
  · obtain rfl : w = 2 := by omega
    rw [whiteSpace_eq]; simp [whiteSpaceBytes]
  · obtain rfl : w = 2 := by omega
    rw [whiteSpace_eq]; simp [whiteSpaceBytes]
  · split_ifs at h with hc
    obtain rfl : w = 0 := by omega
    exact asciiSpace_mem _ hc
  · omega

theorem leadingSpaceWidth_zero (s : GoString) (h : leadingSpaceWidth s = 0) :
    ∀ r ∈ whiteSpace, ¬ r <+: s := by
  intro r hr hp
  rw [whiteSpace_eq] at hr
  obtain ⟨t, rfl⟩ := hp
  simp only [whiteSpaceBytes, List.mem_cons, List.mem_singleton, List.not_mem_nil, or_false] at hr
  rcases hr with rfl | rfl | rfl | rfl | rfl | rfl | rfl | rfl | rfl | rfl | rfl | rfl | rfl |
    rfl | rfl | rfl | rfl | rfl | rfl | rfl | rfl | rfl | rfl | rfl | rfl <;>
  simp [leadingSpaceWidth] at h

set_option maxHeartbeats 4000000 in
theorem trailingSpaceWidth_take (s : GoString) (w : Nat) (h : trailingSpaceWidth s = w + 1) :
    (s.take (w + 1)).reverse ∈ whiteSpace := by
  unfold trailingSpaceWidth at h
  split at h
  · obtain rfl : w = 1 := by omega
    rw [whiteSpace_eq]; simp [whiteSpaceBytes]
  · obtain rfl : w = 1 := by omega
    rw [whiteSpace_eq]; simp [whiteSpaceBytes]
  · obtain rfl : w = 2 := by omega
    rw [whiteSpace_eq]; simp [whiteSpaceBytes]
  · obtain rfl : w = 2 := by omega
    rw [whiteSpace_eq]; simp [whiteSpaceBytes]
  · obtain rfl : w = 2 := by omega
    rw [whiteSpace_eq]; simp [whiteSpaceBytes]
  · split_ifs at h with hc hd
    · obtain rfl : w = 2 := by omega
      exact wideSpace_mem _ hc
    · obtain rfl : w = 0 := by omega
      exact asciiSpace_mem _ hd
  · split_ifs at h with hc
    obtain rfl : w = 0 := by omega
    exact asciiSpace_mem _ hc
  · omega

set_option maxHeartbeats 4000000 in
theorem trailingSpaceWidth_zero (s : GoString) (h : trailingSpaceWidth s = 0) :
    ∀ r ∈ whiteSpace, ¬ r.reverse <+: s := by
  intro r hr hp
  rw [whiteSpace_eq] at hr
  obtain ⟨t, rfl⟩ := hp
  simp only [whiteSpaceBytes, List.mem_cons, List.mem_singleton, List.not_mem_nil, or_false] at hr
  unfold trailingSpaceWidth at h
  split at h
  · omega
  · omega
  · omega
  · omega
  · omega
  · rename_i heq
    rcases hr with rfl | rfl | rfl | rfl | rfl | rfl | rfl | rfl | rfl | rfl | rfl | rfl | rfl |
      rfl | rfl | rfl | rfl | rfl | rfl | rfl | rfl | rfl | rfl | rfl | rfl <;>
    simp only [List.reverse_cons, List.reverse_nil, List.nil_append, List.cons_append,
      List.cons.injEq] at heq <;>
    first
      | (obtain ⟨rfl, _⟩ := heq; exact absurd h (by decide))
      | exact absurd heq.2.1 (by decide)
  · rename_i x5 x4 x3 x2 x1 x0 heq
    rcases hr with rfl | rfl | rfl | rfl | rfl | rfl | rfl | rfl | rfl | rfl | rfl | rfl | rfl |
      rfl | rfl | rfl | rfl | rfl | rfl | rfl | rfl | rfl | rfl | rfl | rfl <;>
    simp only [List.reverse_cons, List.reverse_nil, List.nil_append, List.cons_append,
      List.cons.injEq] at heq <;>
    obtain ⟨rfl, rfl⟩ := heq <;>
    first
      | exact absurd h (by decide)
      | exact x5 _ rfl rfl
      | exact x4 _ rfl rfl
      | exact x3 _ rfl rfl
      | exact x2 _ rfl rfl
      | exact x1 _ rfl rfl
      | exact x0 _ rfl
  · rename_i heq
    rcases hr with rfl | rfl | rfl | rfl | rfl | rfl | rfl | rfl | rfl | rfl | rfl | rfl | rfl |
      rfl | rfl | rfl | rfl | rfl | rfl | rfl | rfl | rfl | rfl | rfl | rfl <;>
    simp at heq


theorem trimWhile_split (width : GoString → Nat) (Q : GoString → Prop)
    (hQ : ∀ s w, width s = w + 1 → Q (s.take (w + 1))) (fuel : Nat) (s : GoString) :
    ∃ pieces : List GoString, (∀ x ∈ pieces, Q x) ∧
      s = pieces.flatten ++ trimWhile width fuel s := by
  induction fuel generalizing s with
  | zero => exact ⟨[], by simp, by simp [trimWhile]⟩
  | succ fuel ih =>
    unfold trimWhile
    split
    · exact ⟨[], by simp, by simp⟩
    · rename_i w hw
      obtain ⟨pieces, hp, hs⟩ := ih (s.drop (w + 1))
      refine ⟨s.take (w + 1) :: pieces, ?_, ?_⟩
      · intro x hx
        rcases List.mem_cons.1 hx with rfl | hx
        · exact hQ s w hw
        · exact hp x hx
      · rw [List.flatten_cons, List.append_assoc, ← hs, List.take_append_drop]

theorem trimWhile_width (width : GoString → Nat) (h0 : width [] = 0) (fuel : Nat) (s : GoString)
    (hf : s.length ≤ fuel) : width (trimWhile width fuel s) = 0 := by
  induction fuel generalizing s with
  | zero =>
    have : s = [] := List.length_eq_zero.1 (Nat.le_zero.1 hf)
    subst this
    simpa [trimWhile] using h0
  | succ fuel ih =>
    unfold trimWhile
    split
    · assumption
    · rename_i w hw
      apply ih
      have hne : s ≠ [] := by
        rintro rfl
        rw [h0] at hw
        omega
      have : 0 < s.length := List.length_pos.2 hne
      rw [List.length_drop]
      omega

theorem TrimSpace_isTrimmed (s : GoString) : IsTrimmed s (TrimSpace s) := by
  obtain ⟨lp, hlp, hl⟩ := trimWhile_split leadingSpaceWidth (fun x => x ∈ whiteSpace)
    leadingSpaceWidth_take s.length s
  have hl0 := trimWhile_width leadingSpaceWidth rfl s.length s (Nat.le_refl _)
  generalize hleft : trimWhile leadingSpaceWidth s.length s = left at hl hl0
  obtain ⟨rp, hrp, hr⟩ := trimWhile_split trailingSpaceWidth (fun x => x.reverse ∈ whiteSpace)
    trailingSpaceWidth_take left.length left.reverse
  have hr0 := trimWhile_width trailingSpaceWidth rfl left.length left.reverse
    (by rw [List.length_reverse])
  have hT : TrimSpace s = (trimWhile trailingSpaceWidth left.length left.reverse).reverse := by
    unfold TrimSpace
    simp only [hleft]
  generalize hres : trimWhile trailingSpaceWidth left.length left.reverse = res at hr hr0 hT
  have hleft2 : left = res.reverse ++ ((rp.map List.reverse).reverse).flatten := by
    have := congrArg List.reverse hr
    rw [List.reverse_reverse, List.reverse_append, List.reverse_flatten] at this
    exact this
  rw [hT]
  refine ⟨lp.flatten, ((rp.map List.reverse).reverse).flatten, ?_, ⟨lp, hlp, rfl⟩, ⟨_, ?_, rfl⟩, ?_, ?_⟩
  · rw [List.append_assoc, ← hleft2]
    exact hl
  · intro r hr'
    simp only [List.mem_map, List.mem_reverse] at hr'
    obtain ⟨x, hx, rfl⟩ := hr'
    exact hrp x hx
  · intro w hw hpre
    refine leadingSpaceWidth_zero left hl0 w hw (hpre.trans ?_)
    rw [hleft2]
    exact List.prefix_append _ _
  · intro w hw hsuf
    have := List.reverse_prefix.2 hsuf
    rw [List.reverse_reverse] at this
    exact trailingSpaceWidth_zero res hr0 w hw this

theorem digitChar_byte (k : Nat) (hk : k < 10) :
    isDigit (Nat.digitChar k).toNat.toUInt8 = true ∧
    (Nat.digitChar k).toNat.toUInt8.toNat - 48 = k ∧
    ((Nat.digitChar k).toNat.toUInt8 = 48 → k = 0) := by
  interval_cases k <;> decide

theorem decimalValue_append (a : GoString) (x : UInt8) :
    decimalValue (a ++ [x]) = decimalValue a * 10 + (x.toNat - 48) := by
  unfold decimalValue
  rw [List.foldl_append]
  rfl

theorem toDigitsCore_decimal (fuel n : Nat) (ds : List Char) (h : n < fuel) :
    ∃ pre : List Char, Nat.toDigitsCore 10 fuel n ds = pre ++ ds ∧
      pre.map (fun c => c.toNat.toUInt8) ≠ [] ∧
      (∀ c ∈ pre.map (fun c => c.toNat.toUInt8), isDigit c = true) ∧
      decimalValue (pre.map (fun c => c.toNat.toUInt8)) = n ∧
      ((pre.map (fun c => c.toNat.toUInt8)).head? = some 48 → n = 0) ∧
      (n = 0 → pre.map (fun c => c.toNat.toUInt8) = [48]) := by
  induction fuel generalizing n ds with
  | zero => omega
  | succ fuel ih =>
    have hmod : n % 10 < 10 := Nat.mod_lt _ (by decide)
    obtain ⟨hd1, hd2, hd3⟩ := digitChar_byte (n % 10) hmod
    unfold Nat.toDigitsCore
    by_cases h0 : n / 10 = 0
    · have hn : n % 10 = n := by omega
      simp only [h0, if_true]
      refine ⟨[Nat.digitChar (n % 10)], rfl, by simp, ?_, ?_, ?_, ?_⟩
      · intro c hc
        simp only [List.map_cons, List.map_nil, List.mem_singleton] at hc
        rw [hc]; exact hd1
      · simp only [List.map_cons, List.map_nil, decimalValue, List.foldl_cons, List.foldl_nil]
        omega
      · intro hh
        simp only [List.map_cons, List.map_nil, List.head?_cons, Option.some.injEq] at hh
        have := hd3 hh
        omega
      · intro hz
        subst hz
        decide
    · simp only [h0, if_false]
      obtain ⟨pre, hpre, hne, hdig, hval, hhead, _⟩ :=
        ih (n / 10) (Nat.digitChar (n % 10) :: ds) (by omega)
      refine ⟨pre ++ [Nat.digitChar (n % 10)], ?_, by simp, ?_, ?_, ?_, ?_⟩
      · rw [hpre]; simp
      · intro c hc
        simp only [List.map_append, List.map_cons, List.map_nil, List.mem_append,
          List.mem_singleton] at hc
        rcases hc with hc | hc
        · exact hdig c hc
        · rw [hc]; exact hd1
      · rw [List.map_append, List.map_cons, List.map_nil, decimalValue_append, hval, hd2]
        omega
      · intro hh
        rw [List.map_append, List.head?_append_of_ne_nil _ hne] at hh
        exact absurd (hhead hh) h0
      · intro hz
        subst hz
        exact absurd rfl h0

theorem Itoa_isDecimal (n : Int) : IsDecimal n (Itoa n) := by
  obtain ⟨pre, hpre, hne, hdig, hval, hhead, hzero⟩ :=
    toDigitsCore_decimal (n.natAbs + 1) n.natAbs [] (Nat.lt_succ_self _)
  have hd : natDigits n.natAbs = pre.map (fun c => c.toNat.toUInt8) := by
    unfold natDigits Nat.toDigits
    rw [hpre, List.append_nil]
  refine ⟨natDigits n.natAbs, ?_, ?_, ?_, ?_, ?_⟩
  · unfold Itoa
    by_cases hn : n < 0
    · simp [hn]
    · simp [hn]
  · rw [hd]; exact hne
  · rw [hd]; exact hdig
  · rw [hd]; exact hval
  · rw [hd]; intro hh; exact hzero (hhead hh)

theorem padRight_isField (width : Nat) (text : GoString) :
    IsField width text (padRight width text) := by
  refine ⟨width - text.length, rfl, ?_⟩
  unfold padRight
  rw [List.length_append, List.length_replicate]
  omega

theorem decimalValue_foldl_lt (digits : GoString) (acc : Nat)
    (hd : ∀ c ∈ digits, isDigit c = true) :
    digits.foldl (fun a c => a * 10 + (c.toNat - 48)) acc < (acc + 1) * 10 ^ digits.length := by
  induction digits generalizing acc with
  | nil => simp
  | cons c s ih =>
    have hc := hd c (List.mem_cons_self _ _)
    simp only [isDigit, Bool.and_eq_true, decide_eq_true_eq] at hc
    have h1 := ih (acc * 10 + (c.toNat - 48)) (fun x hx => hd x (List.mem_cons_of_mem _ hx))
    simp only [List.foldl_cons, List.length_cons]
    have h2 : acc * 10 + (c.toNat - 48) + 1 ≤ (acc + 1) * 10 := by omega
    calc s.foldl (fun a c => a * 10 + (c.toNat - 48)) (acc * 10 + (c.toNat - 48))
        < (acc * 10 + (c.toNat - 48) + 1) * 10 ^ s.length := h1
      _ ≤ ((acc + 1) * 10) * 10 ^ s.length := Nat.mul_le_mul_right _ h2
      _ = (acc + 1) * 10 ^ (s.length + 1) := by rw [Nat.pow_succ]; ring

theorem decimalValue_lt (digits : GoString) (hd : ∀ c ∈ digits, isDigit c = true) :
    decimalValue digits < 10 ^ digits.length := by
  have := decimalValue_foldl_lt digits 0 hd
  simpa [decimalValue] using this


theorem runFrom_second (p : PSScanner) (before : List Cycle) (c1 c2 : Cycle) (after : List Cycle)
    (pl : procList) :
    (runFrom p pl (before ++ c1 :: c2 :: after))[before.length + 1]? =
      some (c2.snapshot.filter (fun pid => !c1.snapshot.contains pid),
        (c2.snapshot.filter (fun pid => !c1.snapshot.contains pid)).filterMap
          (processNewPid c2.os p)) := by
  induction before generalizing pl with
  | nil => simp [runFrom, procList.refresh]
  | cons c rest ih =>
    simp only [List.cons_append, runFrom, procList.refresh, List.length_cons,
      List.getElem?_cons_succ]
    exact ih _

theorem greedyStar_none {α : Type} (cls : UInt8 → Bool) (k : GoString → Option α)
    (s : GoString) (h : ∀ t, t <:+ s → k t = none) : greedyStar cls k s = none := by
  induction s with
  | nil => exact h [] (List.suffix_refl _)
  | cons c s ih =>
    have hs : greedyStar cls k s = none :=
      ih (fun t ht => h t (List.suffix_cons_iff.2 (Or.inr ht)))
    have hc : k (c :: s) = none := h _ (List.suffix_refl _)
    unfold greedyStar
    rw [hs, hc]
    simp

theorem greedyStar_append {α : Type} (cls : UInt8 → Bool) (k : GoString → Option α)
    (xs ys : GoString) (r : α) (hx : ∀ x ∈ xs, cls x = true)
    (h : greedyStar cls k ys = some r) : greedyStar cls k (xs ++ ys) = some r := by
  induction xs with
  | nil => exact h
  | cons x xs ih =>
    have hxs := ih (fun y hy => hx y (List.mem_cons_of_mem _ hy))
    rw [List.cons_append]
    unfold greedyStar
    rw [if_pos (hx x (List.mem_cons_self _ _)), hxs]

theorem greedyStar_stop {α : Type} (cls : UInt8 → Bool) (k : GoString → Option α)
    (c : UInt8) (s : GoString) (h : cls c = false) :
    greedyStar cls k (c :: s) = k (c :: s) := by
  unfold greedyStar
  rw [h]
  simp

theorem foldl_decimal_le (digits : GoString) (n : Nat) :
    n ≤ digits.foldl (fun acc c => acc * 10 + (c.toNat - 48)) n := by
  induction digits generalizing n with
  | nil => exact Nat.le_refl _
  | cons c s ih =>
    simp only [List.foldl_cons]
    exact Nat.le_trans (by omega) (ih _)

theorem parseUintLoop_digits (digits : GoString) (n : Nat)
    (hd : ∀ c ∈ digits, isDigit c = true)
    (hv : digits.foldl (fun acc c => acc * 10 + (c.toNat - 48)) n < 2 ^ 63) :
    parseUintLoop digits n = (digits.foldl (fun acc c => acc * 10 + (c.toNat - 48)) n, none) := by
  induction digits generalizing n with
  | nil => rfl
  | cons c s ih =>
    simp only [List.foldl_cons] at hv ⊢
    have hle := foldl_decimal_le s (n * 10 + (c.toNat - 48))
    have hc := hd c (List.mem_cons_self _ _)
    unfold parseUintLoop
    rw [hc]
    have h1 : ¬ n ≥ (2 ^ 64 - 1) / 10 + 1 := by
      norm_num at hv hle ⊢
      omega
    have h2 : ¬ n * 10 + (c.toNat - 48) ≥ 2 ^ 64 := by
      norm_num at hv hle ⊢
      omega
    simp only [Bool.not_true, Bool.false_eq_true, if_false, h1, h2]
    exact ih _ (fun x hx => hd x (List.mem_cons_of_mem _ hx)) hv

theorem Atoi_digits (digits : GoString) (hne : digits ≠ [])
    (hd : ∀ c ∈ digits, isDigit c = true) (hv : decimalValue digits < 2 ^ 63) :
    Atoi digits = ((decimalValue digits : Int), none) := by
  obtain ⟨c, s, rfl⟩ := List.exists_cons_of_ne_nil hne
  have hc := hd c (List.mem_cons_self _ _)
  have h45 : c ≠ 45 := by rintro rfl; exact absurd hc (by decide)
  have h43 : c ≠ 43 := by rintro rfl; exact absurd hc (by decide)
  have hp := parseUintLoop_digits (c :: s) 0 hd hv
  unfold Atoi
  simp only [List.head?_cons, Option.some.injEq, h45, h43, or_self, if_false, hp,
    decide_False, Bool.not_false, Bool.false_eq_true, false_and, true_and]
  have h3 : ¬ decimalValue (c :: s) ≥ 2 ^ 63 := Nat.not_le.2 hv
  unfold decimalValue at h3 ⊢
  simp [h3]
  simpa [decimalValue] using hv

theorem matchHere_statRecord (pidTxt name : GoString) (state : UInt8) (ppidTxt fields : GoString)
    (hpid : pidTxt ≠ []) (hpidd : ∀ c ∈ pidTxt, isDigit c = true)
    (hname : ∀ c ∈ name, c ≠ 10) (hstate : isAlpha state = true)
    (hppid : ppidTxt ≠ []) (hppidd : ∀ c ∈ ppidTxt, isDigit c = true)
    (hfields : ∀ c ∈ fields, isDigit c = true ∨ c = 45 ∨ c = 32 ∨ c = 10) :
    matchHere ppidRegex [] (statRecord pidTxt name state ppidTxt fields) =
      some (ppidTxt, 32 :: fields) := by
  obtain ⟨d, ds, rfl⟩ := List.exists_cons_of_ne_nil hpid
  obtain ⟨q, qs, rfl⟩ := List.exists_cons_of_ne_nil hppid
  have e1 : gs " (" = [32, 40] := by decide
  have e2 : gs ") " = [41, 32] := by decide
  have e3 : gs " " = [32] := by decide
  have hd := hpidd d (List.mem_cons_self _ _)
  have hq := hppidd q (List.mem_cons_self _ _)
  unfold statRecord ppidRegex
  rw [e1, e2, e3]
  simp only [List.cons_append, List.append_assoc, List.nil_append, List.singleton_append,
    matchHere, hd, if_true]
  apply greedyStar_append _ _ ds _ _ (fun x hx => hpidd x (List.mem_cons_of_mem _ hx))
  rw [greedyStar_stop _ _ 32 _ (by decide)]
  simp only [matchHere, show isByte 32 32 = true from by decide,
    show isByte 40 40 = true from by decide, if_true]
  apply greedyStar_append _ _ name _ _ (fun x hx => by simp [isDot, hname x hx])
  unfold greedyStar
  rw [if_pos (by decide)]
  rw [greedyStar_none]
  · simp only [matchHere, show isByte 41 41 = true from by decide,
      show isByte 32 32 = true from by decide, hstate, hq, if_true]
    have hk : greedyStar isDigit
        (matchHere [Node.groupClose] (q :: (qs ++ 32 :: fields))) (32 :: fields) =
        some (q :: qs, 32 :: fields) := by
      rw [greedyStar_stop _ _ 32 _ (by decide)]
      simp only [matchHere, List.length_cons, List.length_append]
      congr 2
      rw [show qs.length + (fields.length + 1) + 1 - (fields.length + 1) = qs.length + 1 from by omega]
      simp
    exact greedyStar_append _ _ qs _ _ (fun x hx => hppidd x (List.mem_cons_of_mem _ hx)) hk
  · intro t ht
    have hall : ∀ c ∈ (32 :: state :: 32 :: q :: (qs ++ 32 :: fields) : GoString), c ≠ 41 := by
      intro c hc
      simp only [List.mem_cons, List.mem_append] at hc
      rcases hc with rfl | rfl | rfl | rfl | hc | rfl | hc
      · decide
      · rintro rfl; exact absurd hstate (by decide)
      · decide
      · rintro rfl; exact absurd hq (by decide)
      · rintro rfl; exact absurd (hppidd 41 (List.mem_cons_of_mem _ hc)) (by decide)
      · decide
      · rcases hfields c hc with h | rfl | rfl | rfl
        · rintro rfl; exact absurd h (by decide)
        · decide
        · decide
        · decide
    cases t with
    | nil => simp [matchHere]
    | cons c t =>
      have hc : c ≠ 41 := hall c (ht.subset (List.mem_cons_self _ _))
      simp [matchHere, isByte, hc]

theorem FindStringSubmatch_of_matchHere (re : List Node) (c : UInt8) (s grp left : GoString)
    (h : matchHere re [] (c :: s) = some (grp, left)) :
    FindStringSubmatch re (c :: s) =
      some [(c :: s).take ((c :: s).length - left.length), grp] := by
  unfold FindStringSubmatch
  rw [h]

theorem processNewPid_user_listed (os : OS) (p : PSScanner) (pid : Int) (u : User)
    (hne : p.userFilter ≠ []) (hu : ownerLookup os pid = .ok u)
    (hin : u.Username ∈ p.userFilter) : processNewPid os p pid = none := by
  have hpos : p.userFilter.length > 0 := List.length_pos.2 hne
  rw [processNewPid_eq]
  by_cases h1 : p.cgroupFilter ≠ [] ∧ Contains (cgroupContent os pid) p.cgroupFilter = true
  · rw [if_pos h1]
  · rw [if_neg h1, hu]
    have : (decide (p.userFilter.length > 0) && p.userFilter.contains u.Username) = true := by
      simp only [Bool.and_eq_true, decide_eq_true_eq]
      exact ⟨hpos, List.elem_eq_true_of_mem hin⟩
    rw [if_pos this]

/-! ## The claims -/

/-- C1, as amended: for every pid and every scanner whose cgroup filter is a
non-empty string `s`, if the bytes `readFile` returns for the cgroup file (one
`Read` into a buffer of 512 bytes) contain `s`, `processNewPid` sends no event,
whatever the other filters and reads are. -/
theorem cgroup_filter_suppresses (os : OS) (p : PSScanner) (pid : Int)
    (hs : p.cgroupFilter ≠ [])
    (hin : p.cgroupFilter <:+: (readFile os (procPath pid "/cgroup") 512).1) :
    processNewPid os p pid = none := by
  rw [processNewPid_eq]
  have hc : Contains (cgroupContent os pid) p.cgroupFilter = true :=
    (Contains_iff _ _).2 hin
  rw [if_pos ⟨hs, hc⟩]

/-- C1 at the scenario of the specification: filter `docker`, cgroup file
`/docker/abc123`. -/
theorem cgroup_filter_suppresses_witness :
    gs "docker" ≠ [] ∧
    gs "docker" <:+: (readFile (tableOS (sleepFiles 9001 (gs "/docker/abc123")) (some 1000) passwd)
      (procPath 9001 "/cgroup") 512).1 ∧
    processNewPid (tableOS (sleepFiles 9001 (gs "/docker/abc123")) (some 1000) passwd)
      { enablePpid := true, maxCmdLength := 64, cgroupFilter := gs "docker",
        userFilter := [], cmdFilter := [] } 9001 = none :=
  ⟨by decide, (Contains_iff _ _).1 (by decide),
   cgroup_filter_suppresses _ _ 9001 (by decide) ((Contains_iff _ _).1 (by decide))⟩

set_option maxRecDepth 100000 in
/-- C1 as stated fails: the cgroup file of pid 9001 contains `docker`, beyond
its first 512 bytes, the filter is `docker`, and the event is sent. -/
theorem cgroup_filter_beyond_bound :
    (∃ content, (tableOS (sleepFiles 9001 longCgroup) (some 1000) passwd).openFile
        (procPath 9001 "/cgroup") = .ok (fileReader content) ∧ gs "docker" <:+: content) ∧
    processNewPid (tableOS (sleepFiles 9001 longCgroup) (some 1000) passwd)
      { enablePpid := true, maxCmdLength := 64, cgroupFilter := gs "docker",
        userFilter := [], cmdFilter := [] } 9001 =
      some { UID := 1000, PID := 9001, PPID := 1, CMD := gs "/bin/sleep 10" } :=
  ⟨⟨longCgroup, rfl, (Contains_iff _ _).1 (by decide)⟩, by decide⟩

/-- C2: for a pid that passes the cgroup and user filters and a scanner whose
command-exclude set is non-empty, an event is sent if and only if the resolved
command is not `"???"`, is not empty and contains none of the exclude
substrings; a command equal to `"???"` is suppressed. -/
theorem cmd_filter_emits_iff (os : OS) (p : PSScanner) (pid : Int)
    (hcg : p.cgroupFilter = [] ∨ ¬ p.cgroupFilter <:+: cgroupContent os pid)
    (husr : p.userFilter = [] ∨ ∀ u, ownerLookup os pid = .ok u → u.Username ∉ p.userFilter)
    (hne : p.cmdFilter ≠ []) :
    ((∃ e, processNewPid os p pid = some e) ↔
      resolvedCmd os p pid ≠ gs "???" ∧ resolvedCmd os p pid ≠ [] ∧
        ∀ v ∈ p.cmdFilter, ¬ v <:+: resolvedCmd os p pid) ∧
    (resolvedCmd os p pid = gs "???" → processNewPid os p pid = none) := by
  have h1 : ¬ (p.cgroupFilter ≠ [] ∧ Contains (cgroupContent os pid) p.cgroupFilter = true) := by
    rintro ⟨ha, hb⟩
    rcases hcg with h | h
    · exact ha h
    · exact h ((Contains_iff _ _).1 hb)
  have h2 : ¬ ((decide (p.userFilter.length > 0) &&
      (match ownerLookup os pid with
       | .ok userLookup => p.userFilter.contains userLookup.Username
       | .error _ => false)) = true) := by
    intro h
    simp only [Bool.and_eq_true, decide_eq_true_eq] at h
    rcases husr with hu | hu
    · rw [hu] at h; simp at h
    · cases hl : ownerLookup os pid with
      | error err => rw [hl] at h; simp at h
      | ok u =>
        rw [hl] at h
        exact hu u hl (List.mem_of_elem_eq_true h.2)
  have hpos : p.cmdFilter.length > 0 := List.length_pos.2 hne
  rw [processNewPid_eq, if_neg h1, if_neg h2]
  refine ⟨?_, ?_⟩
  · constructor
    · rintro ⟨e, he⟩
      by_cases hl : cmdFilterLoop (resolvedCmd os p pid) p.cmdFilter = true
      · rw [if_pos ⟨hpos, hl⟩] at he; cases he
      · have := mt (cmdFilterLoop_iff _ _).2 hl
        refine ⟨fun h => this ⟨hne, Or.inl h⟩, fun h => this ⟨hne, Or.inr (Or.inl h)⟩, ?_⟩
        intro v hv hvc
        exact this ⟨hne, Or.inr (Or.inr ⟨v, hv, hvc⟩)⟩
    · rintro ⟨ha, hb, hc⟩
      have hl : ¬ cmdFilterLoop (resolvedCmd os p pid) p.cmdFilter = true := by
        intro h
        rcases (cmdFilterLoop_iff _ _).1 h with ⟨_, h | h | ⟨v, hv, hvc⟩⟩
        · exact ha h
        · exact hb h
        · exact hc v hv hvc
      rw [if_neg (fun h => hl h.2)]
      exact ⟨_, rfl⟩
  · intro hq
    have hl : cmdFilterLoop (resolvedCmd os p pid) p.cmdFilter = true :=
      (cmdFilterLoop_iff _ _).2 ⟨hne, Or.inl hq⟩
    rw [if_pos ⟨hpos, hl⟩]

/-- C2 at concrete inputs: command filter `cron`, no cgroup or user filter;
pid 4242 exited before its command line could be read and is suppressed, pid
4243 runs `/bin/sleep 10` and is reported. -/
theorem cmd_filter_emits_iff_witness :
    processNewPid (tableOS [] (some 1000) passwd)
      { enablePpid := false, maxCmdLength := 64, cgroupFilter := [],
        userFilter := [], cmdFilter := [gs "cron"] } 4242 = none ∧
    ∃ e, processNewPid (tableOS (sleepFiles 4243 []) (some 1000) passwd)
      { enablePpid := false, maxCmdLength := 64, cgroupFilter := [],
        userFilter := [], cmdFilter := [gs "cron"] } 4243 = some e :=
  ⟨(cmd_filter_emits_iff (tableOS [] (some 1000) passwd)
      { enablePpid := false, maxCmdLength := 64, cgroupFilter := [],
        userFilter := [], cmdFilter := [gs "cron"] } 4242
      (Or.inl rfl) (Or.inl rfl) (by decide)).2 (by decide),
   (cmd_filter_emits_iff (tableOS (sleepFiles 4243 []) (some 1000) passwd)
      { enablePpid := false, maxCmdLength := 64, cgroupFilter := [],
        userFilter := [], cmdFilter := [gs "cron"] } 4243
      (Or.inl rfl) (Or.inl rfl) (by decide)).1.2
      ⟨by decide, by decide, by
        intro v hv
        rw [List.mem_singleton.1 hv, ← Contains_iff]
        decide⟩⟩

/-- C3: with a non-empty username exclusion set, a pid whose uid resolves to a
user name of the set gets no event; when the resolution fails the user filter
does not suppress: the event is sent unless the cgroup filter or the command
filter suppresses it. -/
theorem user_filter_fail_open (os : OS) (p : PSScanner) (pid : Int) (hne : p.userFilter ≠ []) :
    (∀ u, ownerLookup os pid = .ok u → u.Username ∈ p.userFilter →
      processNewPid os p pid = none) ∧
    (∀ err, ownerLookup os pid = .error err →
      ((∃ e, processNewPid os p pid = some e) ↔
        ¬ (p.cgroupFilter ≠ [] ∧ p.cgroupFilter <:+: cgroupContent os pid) ∧
        ¬ (p.cmdFilter ≠ [] ∧ (resolvedCmd os p pid = gs "???" ∨ resolvedCmd os p pid = [] ∨
            ∃ v ∈ p.cmdFilter, v <:+: resolvedCmd os p pid)))) := by
  refine ⟨?_, ?_⟩
  · intro u hu hin
    exact processNewPid_user_listed os p pid u hne hu hin
  · intro err herr
    rw [processNewPid_eq, herr]
    simp only [Bool.and_false, Bool.false_eq_true, if_false]
    constructor
    · rintro ⟨e, he⟩
      by_cases h1 : p.cgroupFilter ≠ [] ∧ Contains (cgroupContent os pid) p.cgroupFilter = true
      · rw [if_pos h1] at he; cases he
      · rw [if_neg h1] at he
        by_cases h2 : p.cmdFilter.length > 0 ∧
            cmdFilterLoop (resolvedCmd os p pid) p.cmdFilter = true
        · rw [if_pos h2] at he; cases he
        · refine ⟨fun h => h1 ⟨h.1, (Contains_iff _ _).2 h.2⟩, fun h => h2 ?_⟩
          exact ⟨List.length_pos.2 h.1, (cmdFilterLoop_iff _ _).2 h⟩
    · rintro ⟨h1, h2⟩
      have h1c : ¬ (p.cgroupFilter ≠ [] ∧
          Contains (cgroupContent os pid) p.cgroupFilter = true) :=
        fun h => h1 ⟨h.1, (Contains_iff _ _).1 h.2⟩
      have h2c : ¬ (p.cmdFilter.length > 0 ∧
          cmdFilterLoop (resolvedCmd os p pid) p.cmdFilter = true) :=
        fun h => h2 ((cmdFilterLoop_iff _ _).1 h.2)
      rw [if_neg h1c, if_neg h2c]
      exact ⟨_, rfl⟩

/-- C3 at concrete inputs: exclusion set `alice`; pid 4242 is owned by uid
1000 (`alice`) and suppressed; with an empty user database the lookup fails
and the same process is reported. -/
theorem user_filter_fail_open_witness :
    processNewPid (tableOS (sleepFiles 4242 []) (some 1000) passwd)
      { enablePpid := true, maxCmdLength := 64, cgroupFilter := [],
        userFilter := [gs "alice"], cmdFilter := [] } 4242 = none ∧
    ∃ e, processNewPid (tableOS (sleepFiles 4242 []) (some 1000) [])
      { enablePpid := true, maxCmdLength := 64, cgroupFilter := [],
        userFilter := [gs "alice"], cmdFilter := [] } 4242 = some e :=
  ⟨(user_filter_fail_open (tableOS (sleepFiles 4242 []) (some 1000) passwd)
      { enablePpid := true, maxCmdLength := 64, cgroupFilter := [],
        userFilter := [gs "alice"], cmdFilter := [] } 4242 (by decide)).1
      { Username := gs "alice" } rfl (by decide),
   ((user_filter_fail_open (tableOS (sleepFiles 4242 []) (some 1000) [])
      { enablePpid := true, maxCmdLength := 64, cgroupFilter := [],
        userFilter := [gs "alice"], cmdFilter := [] } 4242 (by decide)).2
      (GoError.New (gs "user: unknown userid")) rfl).2
      ⟨fun h => h.1 rfl, fun h => h.1 rfl⟩⟩

/-- C4: with no filter configured and parent tracking enabled, when the owner
query, the read of the status file and the read of the command line all fail,
`processNewPid` sends the event `{UID: -1, PID: pid, PPID: -1, CMD: "???"}`. -/
theorem exited_process_event (os : OS) (p : PSScanner) (pid : Int)
    (hcg : p.cgroupFilter = []) (hu : p.userFilter = []) (hc : p.cmdFilter = [])
    (hpp : p.enablePpid = true)
    (hstat : (os.lstat (procPath pid "") { Uid := 0 }).2 ≠ none)
    (hstatus : (readFile os (procPath pid "/stat") 512).2 ≠ none)
    (hcmd : (readFile os (procPath pid "/cmdline") p.maxCmdLength).2 ≠ none) :
    processNewPid os p pid = some { UID := -1, PID := pid, PPID := -1, CMD := gs "???" } := by
  have hppid : (getPpid os p pid).1 = -1 := by
    unfold getPpid
    rw [hpp]
    simp only [Bool.not_true, Bool.false_eq_true, if_false]
    split
    · rfl
    · rename_i h
      rw [h] at hstatus
      exact absurd rfl hstatus
  rw [processNewPid_eq, hcg, hu, hc, hppid]
  simp only [ne_eq, not_true_eq_false, false_and, if_false, List.length_nil, gt_iff_lt,
    Nat.lt_irrefl, decide_False, Bool.false_and, Bool.false_eq_true]
  have h1 : ¬ (ownerStat os pid).2 = none := hstat
  have h2 : resolvedCmd os p pid = gs "???" := by
    unfold resolvedCmd
    rw [if_neg hcmd]
  rw [if_neg h1, h2]

/-- C4 at the scenario of the specification: pid 4242 has exited, nothing
under `/proc/4242` can be read. -/
theorem exited_process_event_witness :
    processNewPid (tableOS [] none [])
      { enablePpid := true, maxCmdLength := 64, cgroupFilter := [],
        userFilter := [], cmdFilter := [] } 4242 =
      some { UID := -1, PID := 4242, PPID := -1, CMD := gs "???" } :=
  exited_process_event (tableOS [] none [])
    { enablePpid := true, maxCmdLength := 64, cgroupFilter := [],
      userFilter := [], cmdFilter := [] } 4242 rfl rfl rfl rfl
    (by decide) (by decide) (by decide)

/-- C5: when the command-line file is read successfully as the bytes `b`, the
CMD of the event `processNewPid` sends has the length of `b`, a space (byte 32)
at each position where `b` has a zero byte and the byte of `b` at every other
position. -/
theorem cmdline_nul_to_space (os : OS) (p : PSScanner) (pid : Int) (b : GoString) (e : PSEvent)
    (hread : readFile os (procPath pid "/cmdline") p.maxCmdLength = (b, none))
    (hemit : processNewPid os p pid = some e) :
    e.CMD.length = b.length ∧
    ∀ i (hi : i < b.length), e.CMD[i]? = some (if b[i] = 0 then 32 else b[i]) := by
  have hcmd : e.CMD = b.map (fun c => if c = 0 then 32 else c) := by
    rw [processNewPid_CMD os p pid e hemit]
    unfold resolvedCmd
    rw [hread]
    simp only [if_true]
    exact nulToSpace_eq_map b
  rw [hcmd]
  refine ⟨List.length_map _ _, ?_⟩
  intro i hi
  rw [List.getElem?_map, List.getElem?_eq_getElem hi]
  rfl

/-- C5 at a concrete input: the command line `/bin/sleep\0-n\0 10\0`. -/
theorem cmdline_nul_to_space_witness :
    processNewPid (tableOS [(procPath 4242 "/cmdline", gs "/bin/sleep" ++ [0] ++ gs "-n" ++ [0] ++ gs " 10" ++ [0])]
        (some 1000) [])
      { enablePpid := false, maxCmdLength := 64, cgroupFilter := [],
        userFilter := [], cmdFilter := [] } 4242 =
      some { UID := 1000, PID := 4242, PPID := -1, CMD := gs "/bin/sleep -n  10 " } ∧
    (gs "/bin/sleep -n  10 ").length = (gs "/bin/sleep" ++ [0] ++ gs "-n" ++ [0] ++ gs " 10" ++ [0]).length ∧
    (gs "/bin/sleep -n  10 ")[10]? = some 32 :=
  ⟨by decide,
   (cmdline_nul_to_space
      (tableOS [(procPath 4242 "/cmdline", gs "/bin/sleep" ++ [0] ++ gs "-n" ++ [0] ++ gs " 10" ++ [0])]
        (some 1000) [])
      { enablePpid := false, maxCmdLength := 64, cgroupFilter := [],
        userFilter := [], cmdFilter := [] } 4242
      (gs "/bin/sleep" ++ [0] ++ gs "-n" ++ [0] ++ gs " 10" ++ [0])
      { UID := 1000, PID := 4242, PPID := -1, CMD := gs "/bin/sleep -n  10 " }
      (by decide) (by decide)).1,
   by decide⟩

/-- C10: when the owner query fails, leaving the zero-valued record, and the
username exclusion set is non-empty, the user filter is still evaluated, with
uid 0: if uid 0 resolves to a user name of the set, no event is sent; without
the user filter the event of that pid carries the UID -1. -/
theorem lstat_failure_filters_uid_zero (os : OS) (p : PSScanner) (pid : Int) (u : User)
    (err : GoError)
    (hfail : os.lstat (procPath pid "") { Uid := 0 } = ({ Uid := 0 }, some err))
    (hne : p.userFilter ≠ [])
    (hroot : os.LookupId (gs "0") = .ok u) (hin : u.Username ∈ p.userFilter) :
    processNewPid os p pid = none ∧
    ∀ e, processNewPid os { p with userFilter := [] } pid = some e → e.UID = -1 := by
  have hlook : ownerLookup os pid = .ok u := by
    unfold ownerLookup ownerStat
    rw [hfail]
    have h0 : FormatUint (0 : UInt32).toNat = gs "0" := by decide
    show os.LookupId (FormatUint (0 : UInt32).toNat) = .ok u
    rw [h0]
    exact hroot
  refine ⟨processNewPid_user_listed os p pid u hne hlook hin, ?_⟩
  intro e he
  rw [processNewPid_eq] at he
  have h2 : ¬ (ownerStat os pid).2 = none := by
    unfold ownerStat
    rw [hfail]
    simp
  split_ifs at he
  simp only [Option.some.injEq] at he
  rw [← he]

/-- C10 at a concrete input: pid 4242 has exited, the exclusion set is `root`;
no event is sent, although without the user filter the event has UID -1. -/
theorem lstat_failure_filters_uid_zero_witness :
    processNewPid (tableOS [] none passwd)
      { enablePpid := false, maxCmdLength := 64, cgroupFilter := [],
        userFilter := [gs "root"], cmdFilter := [] } 4242 = none ∧
    processNewPid (tableOS [] none passwd)
      { enablePpid := false, maxCmdLength := 64, cgroupFilter := [],
        userFilter := [], cmdFilter := [] } 4242 =
      some { UID := -1, PID := 4242, PPID := -1, CMD := gs "???" } :=
  ⟨(lstat_failure_filters_uid_zero (tableOS [] none passwd)
      { enablePpid := false, maxCmdLength := 64, cgroupFilter := [],
        userFilter := [gs "root"], cmdFilter := [] } 4242 { Username := gs "root" }
      (GoError.errno 2) rfl (by decide) rfl (by decide)).1,
   by decide⟩

/-- C7, as amended: for every event, `String()` is `UID=` and the uid (the
decimal UID, `???` for -1) in a field of at least 5 characters, filled with
trailing spaces up to 5 and uncut when longer, ` PID=` and the decimal PID in
such a field of 6, then, exactly when PPID is not -1, ` PPID=` and the decimal
PPID in such a field of 6, then ` CMD=` and the command with its leading and
trailing white space removed; for an event produced with parent tracking
disabled the PPID segment is absent. -/
theorem String_isLine (evt : PSEvent) :
    IsLine IsField evt (evt.PPID ≠ -1) evt.String ∧
    ∀ (os : OS) (p : PSScanner) (pid : Int), p.enablePpid = false →
      processNewPid os p pid = some evt → IsLine IsField evt False evt.String := by
  have huid : ∀ uid : GoString, uid = (if evt.UID = -1 then gs "???" else Itoa evt.UID) →
      (evt.UID = -1 → uid = gs "???") ∧ (evt.UID ≠ -1 → IsDecimal evt.UID uid) := by
    intro uid hu
    constructor
    · intro h; rw [hu, if_pos h]
    · intro h; rw [hu, if_neg h]; exact Itoa_isDecimal _
  have hline : IsLine IsField evt (evt.PPID ≠ -1) evt.String := by
    by_cases hpp : evt.PPID = -1
    · refine ⟨_, Itoa evt.PID, _, _, [], TrimSpace evt.CMD, (huid _ rfl).1, (huid _ rfl).2,
        Itoa_isDecimal _, padRight_isField 5 _, padRight_isField 6 _, ?_, ?_,
        TrimSpace_isTrimmed _, ?_⟩
      · intro h; exact absurd hpp h
      · intro _; rfl
      · unfold PSEvent.String
        simp [hpp]
    · refine ⟨_, Itoa evt.PID, _, _, gs " PPID=" ++ padRight 6 (Itoa evt.PPID),
        TrimSpace evt.CMD, (huid _ rfl).1, (huid _ rfl).2,
        Itoa_isDecimal _, padRight_isField 5 _, padRight_isField 6 _, ?_, ?_,
        TrimSpace_isTrimmed _, ?_⟩
      · intro _
        exact ⟨Itoa evt.PPID, _, Itoa_isDecimal _, padRight_isField 6 _, rfl⟩
      · intro h; exact absurd hpp h
      · unfold PSEvent.String
        simp [hpp]
  refine ⟨hline, ?_⟩
  intro os p pid hoff hemit
  have hpp : evt.PPID = -1 := by
    rw [processNewPid_PPID os p pid evt hemit]
    unfold getPpid
    rw [hoff]
    rfl
  obtain ⟨uid, pidTxt, fu, fp, segment, cmd, h1, h2, h3, h4, h5, _, h7, h8, h9⟩ := hline
  exact ⟨uid, pidTxt, fu, fp, segment, cmd, h1, h2, h3, h4, h5, fun h => h.elim,
    fun _ => h7 (fun h => h hpp), h8, h9⟩

/-- C7 at a concrete input: the event of pid 4242 produced with parent tracking
disabled is rendered without a PPID segment. -/
theorem String_isLine_witness :
    processNewPid (tableOS (sleepFiles 4242 []) (some 1000) passwd)
      { enablePpid := false, maxCmdLength := 64, cgroupFilter := [],
        userFilter := [], cmdFilter := [] } 4242 =
      some { UID := 1000, PID := 4242, PPID := -1, CMD := gs "/bin/sleep 10" } ∧
    PSEvent.String { UID := 1000, PID := 4242, PPID := -1, CMD := gs "/bin/sleep 10" } =
      gs "UID=1000  PID=4242   CMD=/bin/sleep 10" ∧
    IsLine IsField { UID := 1000, PID := 4242, PPID := -1, CMD := gs "/bin/sleep 10" } False
      (PSEvent.String { UID := 1000, PID := 4242, PPID := -1, CMD := gs "/bin/sleep 10" }) :=
  ⟨by decide, by decide,
   (String_isLine { UID := 1000, PID := 4242, PPID := -1, CMD := gs "/bin/sleep 10" }).2
      (tableOS (sleepFiles 4242 []) (some 1000) passwd)
      { enablePpid := false, maxCmdLength := 64, cgroupFilter := [],
        userFilter := [], cmdFilter := [] } 4242 rfl (by decide)⟩

/-- C7 as stated fails: for the uid 100000 the line is `UID=100000 PID=...`,
the uid takes six characters, and the line is not one whose uid stands in a
field of 5 characters. -/
theorem String_uid_wider_than_field :
    PSEvent.String { UID := 100000, PID := 4242, PPID := -1, CMD := gs "ps" } =
      gs "UID=100000 PID=4242   CMD=ps" ∧
    ¬ IsLine IsExactField { UID := 100000, PID := 4242, PPID := -1, CMD := gs "ps" }
      (({ UID := 100000, PID := 4242, PPID := -1, CMD := gs "ps" } : PSEvent).PPID ≠ -1)
      (PSEvent.String { UID := 100000, PID := 4242, PPID := -1, CMD := gs "ps" }) := by
  refine ⟨by decide, ?_⟩
  rintro ⟨uid, pidTxt, fu, fp, segment, cmd, _, h2, _, ⟨k, hfu, hlen⟩, _⟩
  obtain ⟨digits, huid, _, hdig, hval, _⟩ := h2 (by decide)
  have hv : decimalValue digits = 100000 := by simpa using hval
  have hlt := decimalValue_lt digits hdig
  have hl : digits.length ≤ 5 := by
    have : fu.length = digits.length + k := by
      rw [hfu, huid]
      simp
    omega
  have hpow : 10 ^ digits.length ≤ 10 ^ 5 := Nat.pow_le_pow_right (by decide) hl
  omega

/-- C8, as amended: the event `{UID: 1000, PID: 4242, PPID: 1, CMD: "/bin/sleep 10"}`
is rendered with two spaces after 1000, three after 4242 and six after the
PPID value 1 (five fill its field of 6, one separates it from `CMD=`). -/
theorem String_scenario :
    PSEvent.String { UID := 1000, PID := 4242, PPID := 1, CMD := gs "/bin/sleep 10" } =
      gs "UID=1000  PID=4242   PPID=1      CMD=/bin/sleep 10" := by
  decide

/-- C8 as stated fails: the rendered line is not the one with five spaces
after the PPID value. -/
theorem String_scenario_not_five_spaces :
    PSEvent.String { UID := 1000, PID := 4242, PPID := 1, CMD := gs "/bin/sleep 10" } ≠
      gs "UID=1000  PID=4242   PPID=1     CMD=/bin/sleep 10" := by
  decide

/-- C9: in two successive scan cycles of `Run`, the pids handed to
`processNewPid` in the second are exactly those of the current snapshot absent
from the previous one, and no event of the second cycle is for a pid present
in both snapshots. -/
theorem Run_hands_over_new_pids (p : PSScanner) (before : List Cycle) (c1 c2 : Cycle)
    (after : List Cycle) :
    ∃ events, (p.Run (before ++ c1 :: c2 :: after))[before.length + 1]? =
        some (c2.snapshot.filter (fun pid => decide (pid ∉ c1.snapshot)), events) ∧
      ∀ pid, pid ∈ c1.snapshot → pid ∈ c2.snapshot → ∀ e ∈ events, e.PID ≠ pid := by
  have hf : (fun pid => decide (pid ∉ c1.snapshot)) = (fun pid => !c1.snapshot.contains pid) := by
    funext pid
    simp
  refine ⟨(c2.snapshot.filter (fun pid => !c1.snapshot.contains pid)).filterMap
    (processNewPid c2.os p), ?_, ?_⟩
  · unfold PSScanner.Run
    rw [runFrom_second, hf]
  · intro pid h1 _ e he hpid
    rcases List.mem_filterMap.1 he with ⟨q, hq, hqe⟩
    have hqpid : q = pid := by
      rw [← processNewPid_PID c2.os p q e hqe]; exact hpid
    rw [hqpid] at hq
    have := (List.mem_filter.1 hq).2
    simp only [Bool.not_eq_true', List.contains_eq_any_beq, List.any_eq_false, beq_iff_eq] at this
    exact this pid h1 rfl

/-- C6, as amended: with parent tracking enabled, when the read of the status
file returns a record `<pid> (<name>) <state> <ppid> <fields>` where `<pid>`
and `<ppid>` are decimal numerals, `<ppid>` below 2^63, `<state>` is a letter,
the fields are numeric and `<name>` is any byte string without a line feed (it
may contain spaces and parentheses), `getPpid` returns `<ppid>` and no error. -/
theorem getPpid_statRecord (os : OS) (p : PSScanner) (pid : Int)
    (pidTxt name : GoString) (state : UInt8) (ppidTxt fields : GoString)
    (hen : p.enablePpid = true)
    (hread : readFile os (procPath pid "/stat") 512 =
      (statRecord pidTxt name state ppidTxt fields, none))
    (hpid : pidTxt ≠ []) (hpidd : ∀ c ∈ pidTxt, isDigit c = true)
    (hname : ∀ c ∈ name, c ≠ 10) (hstate : isAlpha state = true)
    (hppid : ppidTxt ≠ []) (hppidd : ∀ c ∈ ppidTxt, isDigit c = true)
    (hval : decimalValue ppidTxt < 2 ^ 63)
    (hfields : ∀ c ∈ fields, isDigit c = true ∨ c = 45 ∨ c = 32 ∨ c = 10) :
    getPpid os p pid = ((decimalValue ppidTxt : Int), none) := by
  have hm := matchHere_statRecord pidTxt name state ppidTxt fields hpid hpidd hname hstate
    hppid hppidd hfields
  obtain ⟨c, rest, hrec⟩ : ∃ c rest, statRecord pidTxt name state ppidTxt fields = c :: rest := by
    obtain ⟨d, ds, rfl⟩ := List.exists_cons_of_ne_nil hpid
    exact ⟨d, _, rfl⟩
  rw [hrec] at hm
  unfold getPpid
  rw [hen, hread, hrec]
  simp only [Bool.not_true, Bool.false_eq_true, if_false,
    FindStringSubmatch_of_matchHere _ _ _ _ _ hm]
  exact Atoi_digits ppidTxt hppid hppidd hval

/-- C6 at a concrete input: the process `a) S 7 (b` with parent 1. -/
theorem getPpid_statRecord_witness :
    readFile (tableOS [(procPath 4242 "/stat",
        gs "4242 (a) S 7 (b) R 1 4242 4242 0 -1 4194304\n")] (some 1000) [])
      (procPath 4242 "/stat") 512 =
      (statRecord (gs "4242") (gs "a) S 7 (b") 82 (gs "1") (gs "4242 4242 0 -1 4194304\n"), none) ∧
    getPpid (tableOS [(procPath 4242 "/stat",
        gs "4242 (a) S 7 (b) R 1 4242 4242 0 -1 4194304\n")] (some 1000) [])
      { enablePpid := true, maxCmdLength := 64, cgroupFilter := [],
        userFilter := [], cmdFilter := [] } 4242 = (1, none) :=
  ⟨by decide,
   getPpid_statRecord
    (tableOS [(procPath 4242 "/stat",
        gs "4242 (a) S 7 (b) R 1 4242 4242 0 -1 4194304\n")] (some 1000) [])
    { enablePpid := true, maxCmdLength := 64, cgroupFilter := [],
      userFilter := [], cmdFilter := [] } 4242
    (gs "4242") (gs "a) S 7 (b") 82 (gs "1") (gs "4242 4242 0 -1 4194304\n")
    rfl (by decide) (by decide) (by decide) (by decide) (by decide) (by decide) (by decide)
    (by decide) (by decide)⟩

/-- C6 as stated fails.  The process name `a\n7 (b) S 99\nc` (14 bytes) makes
`getPpid` return 99 for a record whose ppid is 1; for the name `a\nb` it returns
-1 and the error `corrupt stat file`; for the ppid numeral 2^63 it returns
2^63 - 1 and a range error.  Each record is read in full. -/
theorem getPpid_newline_in_name :
    getPpid (tableOS [(procPath 4242 "/stat",
        statRecord (gs "4242") (gs "a\n7 (b) S 99\nc") 83 (gs "1")
          (gs "4242 4242 0 -1 4194304\n"))] (some 1000) [])
      { enablePpid := true, maxCmdLength := 64, cgroupFilter := [],
        userFilter := [], cmdFilter := [] } 4242 = (99, none) ∧
    getPpid (tableOS [(procPath 4242 "/stat",
        statRecord (gs "4242") (gs "a\nb") 83 (gs "1") (gs "4242 4242 0 -1 4194304\n"))]
        (some 1000) [])
      { enablePpid := true, maxCmdLength := 64, cgroupFilter := [],
        userFilter := [], cmdFilter := [] } 4242 =
      (-1, some (GoError.New (gs "corrupt stat file"))) ∧
    getPpid (tableOS [(procPath 4242 "/stat",
        statRecord (gs "4242") (gs "sleep") 83 (gs "9223372036854775808")
          (gs "4242 4242 0 -1 4194304\n"))] (some 1000) [])
      { enablePpid := true, maxCmdLength := 64, cgroupFilter := [],
        userFilter := [], cmdFilter := [] } 4242 =
      (9223372036854775807, some GoError.numRange) := by
  refine ⟨?_, ?_, ?_⟩ <;> decide

end psscanner
